import Mathlib

/-!
Shallow embedding of the `scinotation-rs` library (`src/lib.rs`):
a scientific-notation numeric type `SciValue` storing a significand
`base` and a power-of-ten scale `e_exp`, with arithmetic, ordering,
normalization and exponent alignment.

Modelling conventions:
* The Rust code is generic over a bounded integer `B : Int` and a bounded
  signed integer `E : SignedInt`.  Both are embedded as mathematical `Int`;
  the one place where the bound of `B` is itself part of the algorithm
  (the scale-up loop of `Div::div`, which reads `<B as Int>::max_value()`)
  takes the maximum value as an explicit parameter `maxB`.  The concrete
  tests of the crate use `i32`, whose maximum is `2147483647`.
* Rust's `/` and `%` on signed integers truncate toward zero, so they are
  embedded as `Int.tdiv` and `Int.tmod`.
* Rust panics (integer division by zero, `.expect` on `None`) and loops
  that need not terminate are made explicit: loops are written with fuel,
  and fallible computations return an `Option` or a `DivResult`.
-/

namespace SciNotation

/-- `SciValue<BASEVAL, EXPSTORE>`: a number stored as `base * 10 ^ e_exp`. -/
structure SciValue where
  base : Int
  e_exp : Int
deriving DecidableEq

/-- `SciValue::wrap`: wrap a raw integer with exponent zero. -/
def wrap (val : Int) : SciValue := ⟨val, 0⟩

/-- `SciValue::wrap_with_exponent`: wrap an explicit `(base, exponent)` pair. -/
def wrap_with_exponent (val : Int) (exp : Int) : SciValue := ⟨val, exp⟩

/-- The mathematical magnitude represented by a value: `base * 10 ^ e_exp`,
as a rational so that negative exponents make sense. -/
def mag (x : SciValue) : ℚ := (x.base : ℚ) * (10 : ℚ) ^ x.e_exp

/-- The multiplication loop inside `SciValue::pow`: starting from `base`
(`k = 0` corresponds to the implicit zeroth power `base^1`), perform `k`
further multiplications by `base`. -/
def powBase (b : Int) : Nat → Int
  | 0 => b
  | k + 1 => powBase b k * b

/-- `SciValue::pow`: the Rust loop `for _ in range(1, exp)` multiplies
`newbase` by `base` once per iteration, i.e. `max 0 (exp - 1)` times
(`Int.toNat` clamps negative counts to zero, as the empty `range` does);
the exponent is multiplied by `exp`. -/
def SciValue.pow (x : SciValue) (exp : Int) : SciValue :=
  ⟨powBase x.base (exp - 1).toNat, x.e_exp * exp⟩

/-- The `while new_base % 10 == 0` loop of `SciValue::reduce`, with fuel.
`none` means the fuel ran out before the loop guard failed; in particular a
zero base never escapes the guard (`0 % 10 == 0` and `0 / 10 == 0`), so the
Rust loop never terminates on it. -/
def reduceLoop : Nat → Int → Int → Option (Int × Int)
  | 0, _, _ => none
  | fuel + 1, b, e =>
    if Int.tmod b 10 = 0 then reduceLoop fuel (Int.tdiv b 10) (e + 1)
    else some (b, e)

/-- `SciValue::reduce`.  The fuel `x.base.natAbs + 1` is enough for every
nonzero base (each iteration divides the base by 10), so `none` occurs
exactly where the Rust loop diverges. -/
def SciValue.reduce (x : SciValue) : Option SciValue :=
  (reduceLoop (x.base.natAbs + 1) x.base x.e_exp).map fun p => ⟨p.1, p.2⟩

/-- `Ord::cmp` for `SciValue`: compare exponents first, and only on a tie
compare bases.  No alignment or normalization happens first. -/
def SciValue.cmp (a b : SciValue) : Ordering :=
  match compare a.e_exp b.e_exp with
  | Ordering.eq => compare a.base b.base
  | retval => retval

/-- `PartialOrd::partial_cmp` for `SciValue`: the same comparison through
`Option` (on integers the inner comparison never returns `None`). -/
def SciValue.pcmp (a b : SciValue) : Option Ordering :=
  match some (compare a.e_exp b.e_exp) with
  | some Ordering.eq => some (compare a.base b.base)
  | retval => retval

/-- `match_exponents_rhs_greater`: `rhs` has the strictly larger exponent;
its base is multiplied by `10 ^ (rhs.e_exp - lhs.e_exp)` and its exponent
lowered by the same difference.  (`extra_exp.to_uint()` in the source
succeeds because the difference is positive at every call site; `Int.toNat`
is its value there.) -/
def match_exponents_rhs_greater (lhs rhs : SciValue) : SciValue × SciValue :=
  let extra_exp := rhs.e_exp - lhs.e_exp
  let ten_to_pow : Int := 10 ^ extra_exp.toNat
  (lhs, ⟨rhs.base * ten_to_pow, rhs.e_exp - extra_exp⟩)

/-- `match_exponents`: align two values on a common exponent, scaling the
operand with the larger exponent up. -/
def match_exponents (lhs rhs : SciValue) : SciValue × SciValue :=
  if lhs.e_exp = rhs.e_exp then (lhs, rhs)
  else if lhs.e_exp > rhs.e_exp then
    let p := match_exponents_rhs_greater rhs lhs
    (p.2, p.1)
  else
    match_exponents_rhs_greater lhs rhs

/-- `Add::add`: align exponents, then add the bases and keep the common
exponent. -/
def SciValue.add (lhs rhs : SciValue) : SciValue :=
  let p := match_exponents lhs rhs
  ⟨p.1.base + p.2.base, p.1.e_exp⟩

/-- `Sub::sub`: align exponents, then subtract the bases and keep the
common exponent. -/
def SciValue.sub (lhs rhs : SciValue) : SciValue :=
  let p := match_exponents lhs rhs
  ⟨p.1.base - p.2.base, p.1.e_exp⟩

/-- `Mul::mul`: multiply bases, add exponents. -/
def SciValue.mul (lhs rhs : SciValue) : SciValue :=
  ⟨lhs.base * rhs.base, lhs.e_exp + rhs.e_exp⟩

/-- Outcome of `Div::div`: a value, a Rust panic, or a loop that ran out
of fuel (the region where the real code would silently overflow `B`). -/
inductive DivResult where
  | ok (v : SciValue)
  | panicked (msg : String)
  | noFuel
deriving DecidableEq

/-- The scale-up loop of `Div::div`, with fuel: while the dividend base is
not divisible by the divisor base and has headroom below
`max_value(B) / 10`, multiply it by 10 and decrement its exponent.
Evaluating `lb % rb` with `rb == 0` panics in Rust, hence the explicit
check. -/
def divLoop (maxB rb : Int) : Nat → Int → Int → DivResult × (Int × Int)
  | 0, lb, le => (DivResult.noFuel, (lb, le))
  | fuel + 1, lb, le =>
    if rb = 0 then
      (DivResult.panicked "attempt to calculate the remainder with a divisor of zero", (lb, le))
    else if Int.tmod lb rb ≠ 0 ∧ lb < Int.tdiv maxB 10 then
      divLoop maxB rb fuel (lb * 10) (le - 1)
    else
      (DivResult.ok ⟨lb, le⟩, (lb, le))

/-- Fuel for the division loop.  For a nonnegative dividend base the loop
multiplies the base by 10 each pass and stops once it reaches
`maxB / 10`, so for any `maxB` below `10 ^ 127` this fuel is never the
reason the loop stops. -/
def divFuel : Nat := 128

/-- `Div::div`: run the scale-up loop, then divide the bases (truncating)
and subtract the exponents.  The trailing division panics on a zero
divisor base, though the loop guard has already panicked in that case. -/
def div (maxB : Int) (lhs rhs : SciValue) : DivResult :=
  match divLoop maxB rhs.base divFuel lhs.base lhs.e_exp with
  | (DivResult.ok v, _) =>
    if rhs.base = 0 then DivResult.panicked "attempt to divide by zero"
    else DivResult.ok ⟨Int.tdiv v.base rhs.base, v.e_exp - rhs.e_exp⟩
  | (other, _) => other

/-- `<i32 as Int>::max_value()`, the bound in force in the crate's tests,
whose literals default to `i32`. -/
def i32MAX : Int := 2147483647

/-- Modelled from the spec (§4.6), for the refinement claim about division:
"while `lhs.base mod rhs.base != 0` and `lhs.base < max_representable(Base)
/ 10`, multiply `lhs.base` by 10 and decrement `lhs.exponent` by 1" —
the same loop, written from the spec's words, which assume a nonzero
divisor base. -/
def divSpecLoop (maxRep rb : Int) : Nat → Int → Int → DivResult × (Int × Int)
  | 0, lb, le => (DivResult.noFuel, (lb, le))
  | fuel + 1, lb, le =>
    if Int.tmod lb rb ≠ 0 ∧ lb < Int.tdiv maxRep 10 then
      divSpecLoop maxRep rb fuel (lb * 10) (le - 1)
    else
      (DivResult.ok ⟨lb, le⟩, (lb, le))

/-- Modelled from the spec (§4.6): after the loop, the result has
`base = lhs.base / rhs.base` and `exponent = lhs.exponent - rhs.exponent`. -/
def divSpec (maxRep : Int) (lhs rhs : SciValue) : DivResult :=
  match divSpecLoop maxRep rhs.base divFuel lhs.base lhs.e_exp with
  | (DivResult.ok v, _) =>
    DivResult.ok ⟨Int.tdiv v.base rhs.base, v.e_exp - rhs.e_exp⟩
  | (other, _) => other

/-! ### Helper lemmas -/

lemma powBase_eq (b : Int) : ∀ k, powBase b k = b ^ (k + 1)
  | 0 => by simp [powBase]
  | k + 1 => by rw [powBase, powBase_eq b k, ← pow_succ]

lemma mag_scale (b e : Int) (k : Nat) : mag ⟨b * 10 ^ k, e⟩ = mag ⟨b, e + k⟩ := by
  simp only [mag]
  push_cast
  rw [zpow_add₀ (by norm_num : (10 : ℚ) ≠ 0), zpow_natCast]
  ring

lemma mag_add (b c e : Int) : mag ⟨b + c, e⟩ = mag ⟨b, e⟩ + mag ⟨c, e⟩ := by
  simp only [mag]
  push_cast
  ring

lemma mag_sub (b c e : Int) : mag ⟨b - c, e⟩ = mag ⟨b, e⟩ - mag ⟨c, e⟩ := by
  simp only [mag]
  push_cast
  ring

lemma mag_scaled (b eLow eHigh : Int) (h : eLow ≤ eHigh) :
    mag ⟨b * 10 ^ (eHigh - eLow).toNat, eLow⟩ = mag ⟨b, eHigh⟩ := by
  rw [mag_scale]
  have he : eLow + ((eHigh - eLow).toNat : Int) = eHigh := by omega
  rw [he]

lemma reduceLoop_zero_base : ∀ fuel (e : Int), reduceLoop fuel 0 e = none
  | 0, _ => rfl
  | fuel + 1, e => by
    rw [reduceLoop, if_pos (show Int.tmod 0 10 = 0 from rfl)]
    exact reduceLoop_zero_base fuel (e + 1)

lemma reduceLoop_sound : ∀ (fuel : Nat) (b e : Int), b ≠ 0 → b.natAbs < fuel →
    ∃ (c : Int) (k : Nat), reduceLoop fuel b e = some (c, e + k) ∧
      Int.tmod c 10 ≠ 0 ∧ c * 10 ^ k = b ∧ c ≠ 0
  | 0, b, _, _, hf => absurd hf (Nat.not_lt_zero _)
  | fuel + 1, b, e, hb, hf => by
    rw [reduceLoop]
    by_cases h : Int.tmod b 10 = 0
    · rw [if_pos h]
      have hd : (10 : ℤ) ∣ b := Int.dvd_of_tmod_eq_zero h
      have hcancel : Int.tdiv b 10 * 10 = b := Int.tdiv_mul_cancel hd
      have hb' : Int.tdiv b 10 ≠ 0 := by
        intro h0
        apply hb
        rw [← hcancel, h0, Int.zero_mul]
      have habs : (Int.tdiv b 10).natAbs < b.natAbs := by
        have h1 : 1 ≤ (Int.tdiv b 10).natAbs := Int.natAbs_pos.mpr hb'
        have h2 : b.natAbs = (Int.tdiv b 10).natAbs * 10 := by
          conv_lhs => rw [← hcancel]
          rw [Int.natAbs_mul]
          rfl
        omega
      have hfu : (Int.tdiv b 10).natAbs < fuel := by omega
      obtain ⟨c, k, hr, hc10, hck, hc0⟩ :=
        reduceLoop_sound fuel (Int.tdiv b 10) (e + 1) hb' hfu
      refine ⟨c, k + 1, ?_, hc10, ?_, hc0⟩
      · rw [hr]
        have : e + 1 + (k : Int) = e + ((k + 1 : Nat) : Int) := by push_cast; ring
        rw [this]
      · rw [pow_succ, ← Int.mul_assoc, hck, hcancel]
    · rw [if_neg h]
      exact ⟨b, 0, by simp, h, by simp, hb⟩

lemma reduce_spec (b e : Int) (hb : b ≠ 0) :
    ∃ (c : Int) (k : Nat), SciValue.reduce ⟨b, e⟩ = some ⟨c, e + k⟩ ∧
      Int.tmod c 10 ≠ 0 ∧ c * 10 ^ k = b ∧ c ≠ 0 := by
  obtain ⟨c, k, hr, h10, hck, hc0⟩ :=
    reduceLoop_sound (b.natAbs + 1) b e hb (Nat.lt_succ_self _)
  exact ⟨c, k, by simp [SciValue.reduce, hr], h10, hck, hc0⟩

lemma reduce_canonical (b e : Int) (h : Int.tmod b 10 ≠ 0) :
    SciValue.reduce ⟨b, e⟩ = some ⟨b, e⟩ := by
  simp [SciValue.reduce, reduceLoop, h]

lemma me_eq_exp (lhs rhs : SciValue) (h : lhs.e_exp = rhs.e_exp) :
    match_exponents lhs rhs = (lhs, rhs) := by
  rw [match_exponents, if_pos h]

lemma me_lt (lhs rhs : SciValue) (h : lhs.e_exp < rhs.e_exp) :
    match_exponents lhs rhs =
      (lhs, ⟨rhs.base * 10 ^ (rhs.e_exp - lhs.e_exp).toNat, lhs.e_exp⟩) := by
  rw [match_exponents, if_neg (by omega), if_neg (by omega)]
  simp only [match_exponents_rhs_greater]
  have : rhs.e_exp - (rhs.e_exp - lhs.e_exp) = lhs.e_exp := by ring
  rw [this]

lemma me_gt (lhs rhs : SciValue) (h : rhs.e_exp < lhs.e_exp) :
    match_exponents lhs rhs =
      (⟨lhs.base * 10 ^ (lhs.e_exp - rhs.e_exp).toNat, rhs.e_exp⟩, rhs) := by
  rw [match_exponents, if_neg (by omega), if_pos (by omega)]
  simp only [match_exponents_rhs_greater]
  have : lhs.e_exp - (lhs.e_exp - rhs.e_exp) = rhs.e_exp := by ring
  rw [this]

lemma me_exp_eq (l r : SciValue) :
    (match_exponents l r).1.e_exp = (match_exponents l r).2.e_exp := by
  rcases lt_trichotomy l.e_exp r.e_exp with h | h | h
  · rw [me_lt l r h]
  · rw [me_eq_exp l r h]; exact h
  · rw [me_gt l r h]

lemma me_mag_fst (l r : SciValue) : mag (match_exponents l r).1 = mag l := by
  rcases lt_trichotomy l.e_exp r.e_exp with h | h | h
  · rw [me_lt l r h]
  · rw [me_eq_exp l r h]
  · rw [me_gt l r h]
    exact mag_scaled l.base r.e_exp l.e_exp (le_of_lt h)

lemma me_mag_snd (l r : SciValue) : mag (match_exponents l r).2 = mag r := by
  rcases lt_trichotomy l.e_exp r.e_exp with h | h | h
  · rw [me_lt l r h]
    exact mag_scaled r.base l.e_exp r.e_exp (le_of_lt h)
  · rw [me_eq_exp l r h]
  · rw [me_gt l r h]

lemma me_swap (l r : SciValue) :
    match_exponents r l = ((match_exponents l r).2, (match_exponents l r).1) := by
  rcases lt_trichotomy l.e_exp r.e_exp with h | h | h
  · rw [me_lt l r h, me_gt r l h]
  · rw [me_eq_exp l r h, me_eq_exp r l h.symm]
  · rw [me_gt l r h, me_lt r l h]

lemma add_mag (l r : SciValue) : mag (l.add r) = mag l + mag r := by
  have h1 := me_mag_fst l r
  have h2 := me_mag_snd l r
  have he := me_exp_eq l r
  show mag ⟨(match_exponents l r).1.base + (match_exponents l r).2.base,
            (match_exponents l r).1.e_exp⟩ = mag l + mag r
  rw [mag_add]
  nth_rewrite 2 [he]
  show mag (match_exponents l r).1 + mag (match_exponents l r).2 = mag l + mag r
  rw [h1, h2]

lemma sub_mag (l r : SciValue) : mag (l.sub r) = mag l - mag r := by
  have h1 := me_mag_fst l r
  have h2 := me_mag_snd l r
  have he := me_exp_eq l r
  show mag ⟨(match_exponents l r).1.base - (match_exponents l r).2.base,
            (match_exponents l r).1.e_exp⟩ = mag l - mag r
  rw [mag_sub]
  nth_rewrite 2 [he]
  show mag (match_exponents l r).1 - mag (match_exponents l r).2 = mag l - mag r
  rw [h1, h2]

lemma divLoop_eq_specLoop (maxB rb : Int) (h : rb ≠ 0) :
    ∀ (fuel : Nat) (lb le : Int),
      divLoop maxB rb fuel lb le = divSpecLoop maxB rb fuel lb le
  | 0, _, _ => rfl
  | fuel + 1, lb, le => by
    rw [divLoop, divSpecLoop, if_neg h]
    split
    · exact divLoop_eq_specLoop maxB rb h fuel _ _
    · rfl

/-! ### Claim theorems -/

/-- C1: For every pair of values with a nonzero divisor base, division is
computed by the algorithm the specification describes (scale the dividend
base up by 10, paying one unit of exponent, while it is not divisible by
the divisor base and stays below `max_value(Base) / 10`; then divide the
bases and subtract the exponents): `div` coincides with the
specification-worded `divSpec`, and `(10,1) / (2,3) = (5,-2)` and
`(1,0) / (2,0) = (5,-1)` at the `i32` bound of the crate's tests. -/
theorem div_follows_spec_algorithm (maxB : Int) (lhs rhs : SciValue)
    (h : rhs.base ≠ 0) :
    div maxB lhs rhs = divSpec maxB lhs rhs ∧
    div i32MAX ⟨10, 1⟩ ⟨2, 3⟩ = DivResult.ok ⟨5, -2⟩ ∧
    div i32MAX ⟨1, 0⟩ ⟨2, 0⟩ = DivResult.ok ⟨5, -1⟩ := by
  refine ⟨?_, by decide, by decide⟩
  unfold div divSpec
  rw [divLoop_eq_specLoop maxB rhs.base h]
  split
  · rw [if_neg h]
  · rfl

/-- Witness for C1 at `lhs = (10,1)`, `rhs = (2,3)`, `maxB = i32MAX`. -/
theorem div_follows_spec_algorithm_witness :
    ((⟨2, 3⟩ : SciValue).base ≠ 0) ∧
    (div i32MAX ⟨10, 1⟩ ⟨2, 3⟩ = divSpec i32MAX ⟨10, 1⟩ ⟨2, 3⟩ ∧
     div i32MAX ⟨10, 1⟩ ⟨2, 3⟩ = DivResult.ok ⟨5, -2⟩ ∧
     div i32MAX ⟨1, 0⟩ ⟨2, 0⟩ = DivResult.ok ⟨5, -1⟩) :=
  ⟨by decide, div_follows_spec_algorithm i32MAX ⟨10, 1⟩ ⟨2, 3⟩ (by decide)⟩

/-- C2: The claim as for nonzero bases: `reduce` preserves the represented
magnitude and yields a base not divisible by 10.  But on a zero base the
code does not return the value unchanged: the loop guard `base % 10 == 0`
stays true forever (`0 % 10 == 0`, `0 / 10 == 0`), so the loop never
produces a result for any amount of fuel — the code diverges where the
claim says the value is returned as-is. -/
theorem reduce_zero_base_diverges :
    (∀ (fuel : Nat) (e : Int), reduceLoop fuel 0 e = none) ∧
    (∀ x : SciValue, x.base = 0 → x.reduce = none) ∧
    (∀ x : SciValue, x.base ≠ 0 →
      ∃ y, x.reduce = some y ∧ Int.tmod y.base 10 ≠ 0 ∧ mag y = mag x) := by
  refine ⟨reduceLoop_zero_base, ?_, ?_⟩
  · intro x hx
    rw [SciValue.reduce, hx, reduceLoop_zero_base]
    rfl
  · intro x hx
    obtain ⟨c, k, hr, h10, hck, hc0⟩ := reduce_spec x.base x.e_exp hx
    refine ⟨⟨c, x.e_exp + k⟩, hr, h10, ?_⟩
    calc mag ⟨c, x.e_exp + (k : Int)⟩
        = mag ⟨c * 10 ^ k, x.e_exp⟩ := (mag_scale c x.e_exp k).symm
      _ = mag x := by rw [hck]

/-- Witness for C2: the zero-base loop yields nothing at fuel 5, `reduce`
of a zero-base value yields nothing, and `(200,10)` reduces canonically. -/
theorem reduce_zero_base_diverges_witness :
    reduceLoop 5 0 3 = none ∧
    SciValue.reduce ⟨0, 7⟩ = none ∧
    (∃ y, SciValue.reduce ⟨200, 10⟩ = some y ∧ Int.tmod y.base 10 ≠ 0 ∧
      mag y = mag ⟨200, 10⟩) :=
  ⟨reduce_zero_base_diverges.1 5 3,
   reduce_zero_base_diverges.2.1 ⟨0, 7⟩ rfl,
   reduce_zero_base_diverges.2.2 ⟨200, 10⟩ (by decide)⟩

/-- C3: `match_exponents` returns a pair sharing one exponent, each side
keeping its input's magnitude; equal exponents return the inputs
unchanged, otherwise the operand with the larger exponent has its base
multiplied by `10^(difference)` and its exponent lowered to the smaller
one while the other operand passes through; and swapping the arguments
swaps the components of the result. -/
theorem match_exponents_aligns (lhs rhs : SciValue) :
    (match_exponents lhs rhs).1.e_exp = (match_exponents lhs rhs).2.e_exp ∧
    mag (match_exponents lhs rhs).1 = mag lhs ∧
    mag (match_exponents lhs rhs).2 = mag rhs ∧
    match_exponents lhs rhs =
      (if lhs.e_exp = rhs.e_exp then (lhs, rhs)
       else if rhs.e_exp < lhs.e_exp then
         (⟨lhs.base * 10 ^ (lhs.e_exp - rhs.e_exp).toNat, rhs.e_exp⟩, rhs)
       else
         (lhs, ⟨rhs.base * 10 ^ (rhs.e_exp - lhs.e_exp).toNat, lhs.e_exp⟩)) ∧
    match_exponents rhs lhs =
      ((match_exponents lhs rhs).2, (match_exponents lhs rhs).1) := by
  refine ⟨me_exp_eq lhs rhs, me_mag_fst lhs rhs, me_mag_snd lhs rhs, ?_,
    me_swap lhs rhs⟩
  rcases lt_trichotomy lhs.e_exp rhs.e_exp with h | h | h
  · rw [me_lt lhs rhs h, if_neg (by omega), if_neg (by omega)]
  · rw [me_eq_exp lhs rhs h, if_pos h]
  · rw [me_gt lhs rhs h, if_neg (by omega), if_pos h]

/-- C4: Addition and subtraction first align the exponents, then add or
subtract the aligned bases keeping the common exponent, and the result's
represented magnitude is exactly the sum or difference of the inputs'
magnitudes (the embedding's unbounded integers realize the claim's
no-overflow proviso); `(5,2) + (21,5) = (21005,2)` and
`(-2,2) - (1,1) = (-21,1)`. -/
theorem add_sub_align_then_combine (lhs rhs : SciValue) :
    lhs.add rhs = ⟨(match_exponents lhs rhs).1.base +
        (match_exponents lhs rhs).2.base, (match_exponents lhs rhs).1.e_exp⟩ ∧
    lhs.sub rhs = ⟨(match_exponents lhs rhs).1.base -
        (match_exponents lhs rhs).2.base, (match_exponents lhs rhs).1.e_exp⟩ ∧
    mag (lhs.add rhs) = mag lhs + mag rhs ∧
    mag (lhs.sub rhs) = mag lhs - mag rhs ∧
    SciValue.add ⟨5, 2⟩ ⟨21, 5⟩ = ⟨21005, 2⟩ ∧
    SciValue.sub ⟨-2, 2⟩ ⟨1, 1⟩ = ⟨-21, 1⟩ :=
  ⟨rfl, rfl, add_mag lhs rhs, sub_mag lhs rhs, by decide, by decide⟩

/-- C5: For an exponent `n ≥ 1`, `pow` returns base `base ^ n` (the loop
performs `n - 1` multiplications starting from `base`, so `pow 1` performs
none) and exponent `exponent * n`; `(2,0).pow 4 = wrap 16` and
`(11,2).pow 4 = (14641, 8)`. -/
theorem pow_positive_exponent (x : SciValue) (n : Int) (h : 1 ≤ n) :
    x.pow n = ⟨x.base ^ n.toNat, x.e_exp * n⟩ ∧
    SciValue.pow ⟨2, 0⟩ 4 = wrap 16 ∧
    SciValue.pow ⟨11, 2⟩ 4 = ⟨14641, 8⟩ := by
  refine ⟨?_, by decide, by decide⟩
  have hn : (n - 1).toNat + 1 = n.toNat := by omega
  rw [SciValue.pow, powBase_eq, hn]

/-- Witness for C5 at `x = (2,0)`, `n = 4`. -/
theorem pow_positive_exponent_witness :
    (1 : Int) ≤ 4 ∧
    (SciValue.pow ⟨2, 0⟩ 4 = ⟨(2 : Int) ^ (4 : Int).toNat, 0 * 4⟩ ∧
     SciValue.pow ⟨2, 0⟩ 4 = wrap 16 ∧
     SciValue.pow ⟨11, 2⟩ 4 = ⟨14641, 8⟩) :=
  ⟨by decide, pow_positive_exponent ⟨2, 0⟩ 4 (by decide)⟩

/-- C6: `reduce` is idempotent on every value with nonzero base (the
precondition the claim itself allows, required because the code diverges
on a zero base): reducing a reduced value changes nothing, a value already
in canonical form is returned unchanged, and `(200,10)` reduces to
`(2,12)`. -/
theorem reduce_idempotent (x : SciValue) (h : x.base ≠ 0) :
    x.reduce.bind SciValue.reduce = x.reduce ∧
    (Int.tmod x.base 10 ≠ 0 → x.reduce = some x) ∧
    SciValue.reduce ⟨200, 10⟩ = some ⟨2, 12⟩ := by
  refine ⟨?_, ?_, by decide⟩
  · obtain ⟨c, k, hr, h10, hck, hc0⟩ := reduce_spec x.base x.e_exp h
    have hx : x.reduce = some ⟨c, x.e_exp + k⟩ := hr
    rw [hx, Option.some_bind]
    exact reduce_canonical c (x.e_exp + k) h10
  · intro h10
    exact reduce_canonical x.base x.e_exp h10

/-- Witness for C6 at `x = (7, 0)` (nonzero, canonical base). -/
theorem reduce_idempotent_witness :
    ((⟨7, 0⟩ : SciValue).base ≠ 0) ∧
    ((SciValue.reduce ⟨7, 0⟩).bind SciValue.reduce = SciValue.reduce ⟨7, 0⟩ ∧
     (Int.tmod (⟨7, 0⟩ : SciValue).base 10 ≠ 0 →
       SciValue.reduce ⟨7, 0⟩ = some ⟨7, 0⟩) ∧
     SciValue.reduce ⟨200, 10⟩ = some ⟨2, 12⟩) :=
  ⟨by decide, reduce_idempotent ⟨7, 0⟩ (by decide)⟩

/-- C7: The total ordering is lexicographic without alignment: `cmp`
compares exponents first and compares bases only on an exponent tie,
`partial_cmp` is the same comparison through `Option`, and no alignment
happens first — witnessed by `(200, 0)` comparing below `(1, 1)` although
its represented magnitude (200) is the larger one (10). -/
theorem cmp_lexicographic_no_alignment (a b : SciValue) :
    SciValue.cmp a b =
      (if a.e_exp = b.e_exp then compare a.base b.base
       else compare a.e_exp b.e_exp) ∧
    SciValue.pcmp a b = some (SciValue.cmp a b) ∧
    SciValue.cmp ⟨200, 0⟩ ⟨1, 1⟩ = Ordering.lt ∧
    mag ⟨1, 1⟩ < mag ⟨200, 0⟩ := by
  refine ⟨?_, ?_, by decide, ?_⟩
  · rcases lt_trichotomy a.e_exp b.e_exp with h | h | h
    · have hc : compare a.e_exp b.e_exp = Ordering.lt := compare_lt_iff_lt.mpr h
      rw [SciValue.cmp, hc, if_neg (ne_of_lt h)]
    · have hc : compare a.e_exp b.e_exp = Ordering.eq := compare_eq_iff_eq.mpr h
      rw [SciValue.cmp, hc, if_pos h]
    · have hc : compare a.e_exp b.e_exp = Ordering.gt := compare_gt_iff_gt.mpr h
      rw [SciValue.cmp, hc, if_neg (ne_of_gt h)]
  · cases hc : compare a.e_exp b.e_exp <;>
      simp [SciValue.pcmp, SciValue.cmp, hc]
  · show (1 : ℚ) * (10 : ℚ) ^ (1 : ℤ) < (200 : ℚ) * (10 : ℚ) ^ (0 : ℤ)
    norm_num

/-- C8: Dividing by a value whose base is zero fails explicitly — the
first evaluation of `lhs.base % rhs.base` in the loop guard is the Rust
panic for a zero divisor, so no numeric result is returned. -/
theorem div_by_zero_base_panics (maxB : Int) (lhs rhs : SciValue)
    (h : rhs.base = 0) :
    div maxB lhs rhs =
      DivResult.panicked
        "attempt to calculate the remainder with a divisor of zero" := by
  have hstep : divLoop maxB rhs.base divFuel lhs.base lhs.e_exp =
      (DivResult.panicked
        "attempt to calculate the remainder with a divisor of zero",
       (lhs.base, lhs.e_exp)) := by
    rw [h, show divFuel = 127 + 1 from rfl, divLoop, if_pos rfl]
  unfold div
  rw [hstep]

/-- Witness for C8 at `lhs = (5, 1)`, `rhs = (0, 7)`, `maxB = i32MAX`. -/
theorem div_by_zero_base_panics_witness :
    ((⟨0, 7⟩ : SciValue).base = 0) ∧
    div i32MAX ⟨5, 1⟩ ⟨0, 7⟩ =
      DivResult.panicked
        "attempt to calculate the remainder with a divisor of zero" :=
  ⟨rfl, div_by_zero_base_panics i32MAX ⟨5, 1⟩ ⟨0, 7⟩ rfl⟩

/-- C9: For an exponent `n ≤ 1` the multiplication loop of `pow` runs zero
times, so the base is returned unchanged and the exponent is scaled by
`n`; in particular `x.pow 0 = (x.base, 0)` and a negative `n` computes no
reciprocal. -/
theorem pow_nonpositive_exponent (x : SciValue) (n : Int) (h : n ≤ 1) :
    x.pow n = ⟨x.base, x.e_exp * n⟩ ∧ x.pow 0 = ⟨x.base, 0⟩ := by
  have h0 : (n - 1).toNat = 0 := by omega
  constructor
  · rw [SciValue.pow, h0]
    rfl
  · rw [SciValue.pow, show ((0 : Int) - 1).toNat = 0 from rfl, Int.mul_zero]
    rfl

/-- Witness for C9 at `x = (3, 5)`, `n = -2`. -/
theorem pow_nonpositive_exponent_witness :
    (-2 : Int) ≤ 1 ∧
    (SciValue.pow ⟨3, 5⟩ (-2) = ⟨3, 5 * (-2)⟩ ∧
     SciValue.pow ⟨3, 5⟩ 0 = ⟨3, 0⟩) :=
  ⟨by decide, pow_nonpositive_exponent ⟨3, 5⟩ (-2) (by decide)⟩

/-- C10: Addition is commutative as structural equality on the resulting
pair: swapping the operands swaps the aligned pair componentwise, and both
the base sum and the common exponent are unchanged by the swap. -/
theorem add_commutative (a b : SciValue) : a.add b = b.add a := by
  rw [SciValue.add, SciValue.add, me_swap a b]
  show (⟨(match_exponents a b).1.base + (match_exponents a b).2.base,
         (match_exponents a b).1.e_exp⟩ : SciValue) =
       ⟨(match_exponents a b).2.base + (match_exponents a b).1.base,
         (match_exponents a b).2.e_exp⟩
  rw [me_exp_eq a b, Int.add_comm]

end SciNotation
